import Mathlib

/-!
Shallow embedding of `quikcli.py`, an interactive console-prompting helper.
Strings are modelled as `List Char` (the library's behavior is ASCII-level:
`str.isspace` becomes `Char.isWhitespace`, `str.isdecimal` becomes
`Char.isDigit`, `str.lower` on one character becomes `Char.toLower`).
Border glyphs are modelled as single characters, which is how the library
uses them.  Code that can raise (indexing `chunks[0]` of an empty list) or
that reads from an exhausted scripted input stream is modelled with
`Option`.  Unbounded loops are driven by fuel that provably suffices under
the documented contracts (`max_length >= 1`).
-/

/-- Embedding of the `Input_Formats` enum of `quikcli.py` (lines 24-27):
`yn = "y/n"`, `numeric = "numeric"`, `integer = "int"`. -/
inductive Input_Formats where
  | yn : Input_Formats
  | numeric : Input_Formats
  | integer : Input_Formats
deriving DecidableEq

/-- Test whether index `i` of `s` holds a whitespace character, the
condition `remaining_text[split_point].isspace()` of `line_split`
(line 63); out-of-range indices (never reached by the caller) are
treated as non-space. -/
def is_space_at (s : List Char) (i : Nat) : Bool :=
  match s[i]? with
  | some c => c.isWhitespace
  | none => false

/-- Embedding of the inner backward scan of `line_split` (lines 61-68):
`split_point` starts at `max_length` and is decremented while the
character there is not whitespace; if it reaches 0 it is reset to
`max_length` (the hard-cut case).  `find_split_go s max_length j`
is the scan with current candidate index `j`. -/
def find_split_go (s : List Char) (max_length : Nat) : Nat → Nat
  | 0 => max_length
  | k + 1 => if is_space_at s (k + 1) then k + 1 else find_split_go s max_length k

/-- The split point chosen by one iteration of the `line_split` loop:
the largest index in `[1, max_length]` holding whitespace, or
`max_length` when there is none. -/
def find_split (s : List Char) (max_length : Nat) : Nat :=
  find_split_go s max_length max_length

/-- Fuel-driven embedding of the `while len(remaining_text) > max_length`
loop of `line_split` (lines 57-74).  Under the source contract
`max_length >= 1`, fuel `text.length` provably suffices, and the
fuel-exhausted clause is only reached with empty remaining text, where
it agrees with the loop exit. -/
def line_split_go (max_length : Nat) : Nat → List Char → List (List Char)
  | 0, remaining_text => [remaining_text]
  | fuel + 1, remaining_text =>
    if remaining_text.length ≤ max_length then [remaining_text]
    else
      remaining_text.take (find_split remaining_text max_length) ::
        line_split_go max_length fuel (remaining_text.drop (find_split remaining_text max_length))

/-- Embedding of `line_split(text, max_length)` (lines 50-75): split text
into lines of at most `max_length` characters, preferring to break at
whitespace; the whitespace character opens the continuation line. -/
def line_split (text : List Char) (max_length : Nat) : List (List Char) :=
  line_split_go max_length text.length text

/-- Embedding of the option chunking of `_display_prompt` (line 146):
`[option[i:i+max_len] for i in range(0, len(option), max_len)]`,
fuel-driven fixed-size slicing; an empty option yields no chunks. -/
def chunk_go (max_len : Nat) : Nat → List Char → List (List Char)
  | 0, _ => []
  | fuel + 1, s =>
    if s.isEmpty then []
    else s.take max_len :: chunk_go max_len fuel (s.drop max_len)

/-- The chunk list of one option label, straight fixed-size slicing
(not whitespace-aware, unlike `line_split`). -/
def chunks (option : List Char) (max_len : Nat) : List (List Char) :=
  chunk_go max_len option.length option

/-- Embedding of the Python format specifier `f"{line:<{n}}"`: pad with
spaces on the right up to width `n`, never truncating. -/
def pad_to (line : List Char) (n : Nat) : List Char :=
  line ++ List.replicate (n - line.length) ' '

/-- One header content row of `_display_prompt` (line 131):
`f"{self.v_border} {line:<{max_len}} {self.v_border}"` — note it uses
the configured vertical border glyph. -/
def header_row (v_border : Char) (max_len : Nat) (line : List Char) : List Char :=
  v_border :: ' ' :: (pad_to line max_len ++ [' ', v_border])

/-- One query content row of `_display_prompt` (line 138):
`f"| {line:<{max_len}} |"` — note the hard-coded `|` characters,
independent of the configured vertical border glyph. -/
def query_row (max_len : Nat) (line : List Char) : List Char :=
  '|' :: ' ' :: (pad_to line max_len ++ [' ', '|'])

/-- First row of one menu option of `_display_prompt` (line 148):
`f"| {i + 1} - {chunks[0]:<{max_len}} |"`, with the 1-based option
number rendered in decimal. -/
def option_first_row (max_len : Nat) (idx : Nat) (chunk : List Char) : List Char :=
  '|' :: ' ' :: ((Nat.repr (idx + 1)).toList ++
    (' ' :: '-' :: ' ' :: (pad_to chunk max_len ++ [' ', '|'])))

/-- Continuation row of one menu option of `_display_prompt` (line 152):
`f"|     {chunks[j]:<{max_len}} |"` (five alignment spaces). -/
def option_cont_row (max_len : Nat) (chunk : List Char) : List Char :=
  '|' :: ' ' :: ' ' :: ' ' :: ' ' :: ' ' :: (pad_to chunk max_len ++ [' ', '|'])

/-- Embedding of the option printing loop of `_display_prompt`
(lines 145-153), starting at 0-based index `idx`.  `chunks option = []`
(an empty option label) makes the source index `chunks[0]` out of
bounds, modelled as `none`. -/
def option_rows (max_len : Nat) : Nat → List (List Char) → Option (List (List Char))
  | _, [] => some []
  | idx, option :: rest =>
    match chunks option max_len with
    | [] => none
    | c :: cs =>
      match option_rows max_len (idx + 1) rest with
      | none => none
      | some tail =>
          some (option_first_row max_len idx c :: (cs.map (option_cont_row max_len) ++ tail))

/-- The `top_bottom_border` of `_display_prompt` (line 122):
`self.h_border * max_width`. -/
def top_border (h_border : Char) (max_width : Nat) : List Char :=
  List.replicate max_width h_border

/-- The `internal_divider` of `_display_prompt` (line 123):
`self.v_border + (self.i_border * (max_width - 2)) + self.v_border`. -/
def divider_row (v_border i_border : Char) (max_width : Nat) : List Char :=
  v_border :: (List.replicate (max_width - 2) i_border ++ [v_border])

/-- The `blank_row` of `_display_prompt` (line 124):
`self.v_border + (' ' * (max_width - 2)) + self.v_border`. -/
def blank_row (v_border : Char) (max_width : Nat) : List Char :=
  v_border :: (List.replicate (max_width - 2) ' ' ++ [v_border])

/-- The header section of `_display_prompt` (lines 128-134): wrapped
header lines followed by a blank row, or nothing when the header is
absent/empty (Python truthiness). -/
def header_block (v_border : Char) (header : List Char) (max_len max_width : Nat) :
    List (List Char) :=
  if header.isEmpty then []
  else (line_split header max_len).map (header_row v_border max_len) ++
    [blank_row v_border max_width]

/-- The query section of `_display_prompt` (lines 136-139): wrapped
query lines, each printed with hard-coded `|` borders. -/
def query_block (query : List Char) (max_len : Nat) : List (List Char) :=
  (line_split query max_len).map (query_row max_len)

/-- Embedding of `_display_prompt(query, max_width, options, header)`
(lines 109-154) as the ordered list of printed lines.  Python's truthiness
tests `if header:` and `if options:` are modelled by emptiness (`None`
and the empty value are both falsy).  The result is `none` exactly when
the source would raise an `IndexError` on an empty option label. -/
def display_prompt (v_border i_border h_border : Char) (query : List Char)
    (max_width : Nat) (options : List (List Char)) (header : List Char) :
    Option (List (List Char)) :=
  if options.isEmpty then
    some (top_border h_border max_width ::
      ((header_block v_border header (max_width - 4) max_width ++
        query_block query (max_width - 4)) ++ [top_border h_border max_width]))
  else
    match option_rows (max_width - 4 - 4) 0 options with
    | none => none
    | some rows =>
        some (top_border h_border max_width ::
          ((header_block v_border header (max_width - 4) max_width ++
            (query_block query (max_width - 4) ++
              (divider_row v_border i_border max_width :: rows))) ++
            [top_border h_border max_width]))

/-- Result of one `prompt_user` call (lines 156-252): the source returns
`True`/`False` for y/n questions, a non-negative `int` for integer
questions, a string for free-form questions, and `None` (here
`skipped`) for a skipped question. -/
inductive Response where
  | asBool : Bool → Response
  | asInt : Nat → Response
  | asStr : List Char → Response
  | skipped : Response
deriving DecidableEq

/-- Outcome of the validation section of one loop iteration of
`prompt_user` (lines 229-252): either `return` with a response value, or
set `error_message` and run another iteration. -/
inductive StepResult where
  | ret : Response → StepResult
  | retry : List Char → StepResult
deriving DecidableEq

/-- Error message set at line 233 of the source. -/
def yn_error_message : List Char :=
  "Invalid Input: Response must start with 'y' or 'n'".toList

/-- Error message set at line 243 of the source. -/
def int_error_message : List Char :=
  "Invalid Input: Response must contain only digits 0-9".toList

/-- Error message set at lines 235, 245 and 250 of the source. -/
def skip_error_message : List Char :=
  "Invalid Input: Question cannot be skipped".toList

/-- Embedding of `int(response)` for all-digit responses (line 241). -/
def parse_int (s : List Char) : Nat :=
  s.foldl (fun acc c => acc * 10 + (c.toNat - 48)) 0

/-- Embedding of `response.isdecimal()` (line 240) at the ASCII level:
every character is one of the decimal digits `0`-`9`. -/
def is_decimal (s : List Char) : Bool :=
  s.all Char.isDigit

/-- Embedding of `response.strip()` (line 226): drop leading and
trailing whitespace. -/
def strip (s : List Char) : List Char :=
  ((s.dropWhile Char.isWhitespace).reverse.dropWhile Char.isWhitespace).reverse

/-- Embedding of the validation section of `prompt_user` (lines 229-252),
acting on the already-stripped response.  The `y/n` branch tests
`response[0].lower()`; the `int` branch tests `response.isdecimal()`;
every other format (including `None` and the unimplemented `numeric`)
takes the free-form branch. -/
def validate_response (input_format : Option Input_Formats) (required : Bool)
    (response : List Char) : StepResult :=
  if input_format = some Input_Formats.yn then
    match response with
    | c :: _ =>
      if c.toLower = 'y' then StepResult.ret (Response.asBool true)
      else if c.toLower = 'n' then StepResult.ret (Response.asBool false)
      else StepResult.retry yn_error_message
    | [] =>
      if required then StepResult.retry skip_error_message
      else StepResult.ret Response.skipped
  else if input_format = some Input_Formats.integer then
    match response with
    | [] =>
      if required then StepResult.retry skip_error_message
      else StepResult.ret Response.skipped
    | _ :: _ =>
      if is_decimal response then StepResult.ret (Response.asInt (parse_int response))
      else StepResult.retry int_error_message
  else
    if required && response.isEmpty then StepResult.retry skip_error_message
    else StepResult.ret (Response.asStr response)

/-- Embedding of the input-reading section of one loop iteration of
`prompt_user` (lines 200-223), over a scripted list of input lines.
Returns the line bound to `response`, the remaining script, and the
number of lines consumed.  In the `y/n` and `int` branches the source
calls `input(...)` twice in a row (lines 208-212 and 214-218), the first
result being immediately overwritten, so those branches consume two
lines and keep only the second.  The branch order mirrors the source
`if instructions / elif menu_options / elif yn / elif integer / else`
chain, with Python truthiness modelled by non-emptiness. -/
def take_response (instructions : List Char) (menu_options : List (List Char))
    (input_format : Option Input_Formats) (inputs : List (List Char)) :
    Option (List Char × List (List Char) × Nat) :=
  if instructions.isEmpty = false then
    match inputs with
    | line :: rest => some (line, rest, 1)
    | [] => none
  else if menu_options.isEmpty = false then
    match inputs with
    | line :: rest => some (line, rest, 1)
    | [] => none
  else if input_format = some Input_Formats.yn then
    match inputs with
    | _ :: line :: rest => some (line, rest, 2)
    | _ => none
  else if input_format = some Input_Formats.integer then
    match inputs with
    | _ :: line :: rest => some (line, rest, 2)
    | _ => none
  else
    match inputs with
    | line :: rest => some (line, rest, 1)
    | [] => none

/-- Fuel-driven embedding of the `while not question_answered` loop of
`prompt_user` (lines 185-252), driven by a scripted list of input lines.
Returns the response value together with the number of loop iterations
(render/read cycles) performed and the total number of input lines
consumed; `none` models running out of scripted input (an unmodeled
end-of-input in the source). -/
def prompt_user_go (instructions : List Char) (menu_options : List (List Char))
    (input_format : Option Input_Formats) (required : Bool) :
    Nat → List (List Char) → Nat → Nat → Option (Response × Nat × Nat)
  | 0, _, _, _ => none
  | fuel + 1, inputs, iterations, consumed =>
    match take_response instructions menu_options input_format inputs with
    | none => none
    | some (raw, rest, k) =>
      match validate_response input_format required (strip raw) with
      | StepResult.ret r => some (r, iterations + 1, consumed + k)
      | StepResult.retry _ =>
          prompt_user_go instructions menu_options input_format required fuel rest
            (iterations + 1) (consumed + k)

/-- Embedding of `prompt_user` (lines 156-252) over a scripted input
list.  Each iteration consumes at least one input line, so fuel
`inputs.length` suffices for every run that the script can complete. -/
def prompt_user (instructions : List Char) (menu_options : List (List Char))
    (input_format : Option Input_Formats) (required : Bool)
    (inputs : List (List Char)) : Option (Response × Nat × Nat) :=
  prompt_user_go instructions menu_options input_format required inputs.length inputs 0 0

/-- The backward scan never returns an index above `max_length`, provided
it starts at or below `max_length`. -/
lemma find_split_go_le (s : List Char) (m : Nat) (j : Nat) (hj : j ≤ m) :
    find_split_go s m j ≤ m := by
  induction j with
  | zero => simp [find_split_go]
  | succ k ih =>
    rw [find_split_go]
    split
    · exact hj
    · exact ih (Nat.le_of_succ_le hj)

/-- The chosen split point is at most `max_length`. -/
lemma find_split_le (s : List Char) (m : Nat) : find_split s m ≤ m :=
  find_split_go_le s m m le_rfl

/-- The backward scan never returns 0 when `max_length ≥ 1`: reaching 0
resets the split point to `max_length` (the hard-cut case). -/
lemma find_split_go_pos (s : List Char) (m : Nat) (hm : 1 ≤ m) (j : Nat) :
    1 ≤ find_split_go s m j := by
  induction j with
  | zero => simpa [find_split_go] using hm
  | succ k ih =>
    rw [find_split_go]
    split
    · omega
    · exact ih

/-- The chosen split point is at least 1 when `max_length ≥ 1`. -/
lemma find_split_pos (s : List Char) (m : Nat) (hm : 1 ≤ m) : 1 ≤ find_split s m :=
  find_split_go_pos s m hm m

/-- Soundness of the fuel-driven wrap loop: with enough fuel and
`max_length ≥ 1`, the result is non-empty, concatenates back to the
input, and every line fits in `max_length`. -/
lemma line_split_go_spec (m : Nat) (hm : 1 ≤ m) :
    ∀ fuel text, text.length ≤ fuel →
      line_split_go m fuel text ≠ [] ∧
      (line_split_go m fuel text).flatten = text ∧
      ∀ l ∈ line_split_go m fuel text, l.length ≤ m := by
  intro fuel
  induction fuel with
  | zero =>
    intro text ht
    have h0 : text = [] := List.eq_nil_of_length_eq_zero (Nat.le_zero.mp ht)
    subst h0
    refine ⟨by simp [line_split_go], by simp [line_split_go], ?_⟩
    intro l hl
    simp [line_split_go] at hl
    simp [hl]
  | succ fuel ih =>
    intro text ht
    rw [line_split_go]
    split
    · rename_i hle
      refine ⟨by simp, by simp, ?_⟩
      intro l hl
      simp only [List.mem_singleton] at hl
      subst hl
      exact hle
    · rename_i hgt
      push_neg at hgt
      have hk1 : 1 ≤ find_split text m := find_split_pos text m hm
      have hkm : find_split text m ≤ m := find_split_le text m
      have hdrop : (text.drop (find_split text m)).length ≤ fuel := by
        rw [List.length_drop]
        omega
      obtain ⟨h1, h2, h3⟩ := ih (text.drop (find_split text m)) hdrop
      refine ⟨by simp, ?_, ?_⟩
      · simp only [List.flatten_cons, h2, List.take_append_drop]
      · intro l hl
        rcases List.mem_cons.mp hl with rfl | hl
        · rw [List.length_take]
          omega
        · exact h3 l hl

/-- C3: for every text and every max_length ≥ 1, line_split returns a
non-empty sequence of lines whose concatenation equals the input text
exactly, and every line in the sequence has length at most max_length. -/
theorem line_split_sound (text : List Char) (max_length : Nat) (hm : 1 ≤ max_length) :
    (line_split text max_length).isEmpty = false ∧
    (line_split text max_length).flatten = text ∧
    (line_split text max_length).all (fun l => decide (l.length ≤ max_length)) = true := by
  obtain ⟨h1, h2, h3⟩ := line_split_go_spec max_length hm text.length text le_rfl
  refine ⟨?_, h2, ?_⟩
  · rw [List.isEmpty_eq_false]
    exact h1
  · rw [List.all_eq_true]
    intro l hl
    exact decide_eq_true (h3 l hl)

/-- Witness for `line_split_sound` at the concrete input of the spec. -/
theorem line_split_sound_witness :
    (1 ≤ 7) ∧
    ((line_split ("hello world".toList) 7).isEmpty = false ∧
      (line_split ("hello world".toList) 7).flatten = "hello world".toList ∧
      (line_split ("hello world".toList) 7).all (fun l => decide (l.length ≤ 7)) = true) :=
  ⟨by decide, line_split_sound ("hello world".toList) 7 (by decide)⟩

/-- C7: the wrap examples of the spec: break at the space at index 5
with the leading space retained on the continuation line, and the
hard-cut path when no whitespace exists. -/
theorem line_split_examples :
    line_split ("hello world".toList) 7 = ["hello".toList, " world".toList] ∧
    line_split ("abc".toList) 2 = ["ab".toList, "c".toList] := by
  constructor <;> rfl

/-- Conversion of `Char.ofNat` back to `Nat` below the surrogate range. -/
lemma toNat_ofNat_lt (n : Nat) (h : n < 55296) : (Char.ofNat n).toNat = n := by
  have hv : n.isValidChar := Or.inl h
  rw [Char.ofNat, dif_pos hv]
  simp [Char.ofNatAux, Char.toNat, UInt32.toNat]

/-- Characters are determined by their scalar value. -/
lemma char_eq_of_toNat_eq {a b : Char} (h : a.toNat = b.toNat) : a = b :=
  Char.eq_of_val_eq (UInt32.ext h)

/-- A character lowercases to `y` exactly when it is `y` or `Y`. -/
lemma toLower_eq_y_iff (c : Char) : c.toLower = 'y' ↔ (c = 'y' ∨ c = 'Y') := by
  constructor
  · intro h
    rw [Char.toLower] at h
    by_cases hn : c.toNat ≥ 65 ∧ c.toNat ≤ 90
    · rw [if_pos hn] at h
      have h2 : (Char.ofNat (c.toNat + 32)).toNat = 121 := by rw [h]; rfl
      rw [toNat_ofNat_lt _ (by omega)] at h2
      right
      apply char_eq_of_toNat_eq
      show c.toNat = 89
      omega
    · rw [if_neg hn] at h
      left
      exact h
  · rintro (rfl | rfl) <;> decide

/-- A character lowercases to `n` exactly when it is `n` or `N`. -/
lemma toLower_eq_n_iff (c : Char) : c.toLower = 'n' ↔ (c = 'n' ∨ c = 'N') := by
  constructor
  · intro h
    rw [Char.toLower] at h
    by_cases hn : c.toNat ≥ 65 ∧ c.toNat ≤ 90
    · rw [if_pos hn] at h
      have h2 : (Char.ofNat (c.toNat + 32)).toNat = 110 := by rw [h]; rfl
      rw [toNat_ofNat_lt _ (by omega)] at h2
      right
      apply char_eq_of_toNat_eq
      show c.toNat = 78
      omega
    · rw [if_neg hn] at h
      left
      exact h
  · rintro (rfl | rfl) <;> decide

/-- C4: for a YesNo-format prompt, a stripped non-empty response whose
first character is `y` or `Y` yields outcome true, one whose first
character is `n` or `N` yields false, any other non-empty response makes
the loop continue with the message set at source line 233, and an empty
response yields the skip sentinel when not required and the
cannot-skip message when required. -/
theorem yn_validation_cases (required : Bool) (c : Char) (rest : List Char) :
    ((c = 'y' ∨ c = 'Y') →
      validate_response (some Input_Formats.yn) required (c :: rest) =
        StepResult.ret (Response.asBool true)) ∧
    ((c = 'n' ∨ c = 'N') →
      validate_response (some Input_Formats.yn) required (c :: rest) =
        StepResult.ret (Response.asBool false)) ∧
    (c ≠ 'y' → c ≠ 'Y' → c ≠ 'n' → c ≠ 'N' →
      validate_response (some Input_Formats.yn) required (c :: rest) =
        StepResult.retry yn_error_message) ∧
    (validate_response (some Input_Formats.yn) false [] = StepResult.ret Response.skipped) ∧
    (validate_response (some Input_Formats.yn) true [] = StepResult.retry skip_error_message) := by
  refine ⟨?_, ?_, ?_, by rfl, by rfl⟩
  · intro hy
    have h1 : c.toLower = 'y' := (toLower_eq_y_iff c).mpr hy
    simp [validate_response, h1]
  · intro hn
    have h1 : c.toLower = 'n' := (toLower_eq_n_iff c).mpr hn
    have h2 : c.toLower ≠ 'y' := by
      rw [h1]
      decide
    simp [validate_response, h1, h2]
  · intro hy hY hn hN
    have h1 : c.toLower ≠ 'y' := by
      intro h
      rcases (toLower_eq_y_iff c).mp h with h | h <;> simp_all
    have h2 : c.toLower ≠ 'n' := by
      intro h
      rcases (toLower_eq_n_iff c).mp h with h | h <;> simp_all
    simp [validate_response, h1, h2]

/-- Witness for `yn_validation_cases`: the invalid branch at the
concrete first character `m` (from the response `maybe`). -/
theorem yn_validation_cases_witness :
    validate_response (some Input_Formats.yn) true ('m' :: "aybe".toList) =
      StepResult.retry yn_error_message :=
  (yn_validation_cases true 'm' ("aybe".toList)).2.2.1
    (by decide) (by decide) (by decide) (by decide)

/-- C5: for an Integer-format prompt, a stripped non-empty all-digit
response yields the parsed integer (so `042` yields 42); a non-empty
response containing any non-digit character (including `-5` and `4.2`)
makes the loop continue with the digits-only message; an empty response
follows the same required/skip rule as YesNo. -/
theorem integer_validation_cases (required : Bool) (response : List Char) :
    (response ≠ [] → (∀ c ∈ response, c.isDigit = true) →
      validate_response (some Input_Formats.integer) required response =
        StepResult.ret (Response.asInt (parse_int response))) ∧
    (response ≠ [] → (∃ c ∈ response, c.isDigit = false) →
      validate_response (some Input_Formats.integer) required response =
        StepResult.retry int_error_message) ∧
    (validate_response (some Input_Formats.integer) required ("042".toList) =
      StepResult.ret (Response.asInt 42)) ∧
    (validate_response (some Input_Formats.integer) required ("-5".toList) =
      StepResult.retry int_error_message) ∧
    (validate_response (some Input_Formats.integer) required ("4.2".toList) =
      StepResult.retry int_error_message) ∧
    (validate_response (some Input_Formats.integer) false [] = StepResult.ret Response.skipped) ∧
    (validate_response (some Input_Formats.integer) true [] =
      StepResult.retry skip_error_message) := by
  refine ⟨?_, ?_, by cases required <;> rfl, by cases required <;> rfl,
    by cases required <;> rfl, by rfl, by rfl⟩
  · intro hne hdig
    have hd : is_decimal response = true := by
      rw [is_decimal, List.all_eq_true]
      exact hdig
    match response, hne with
    | c :: rest, _ => simp [validate_response, hd]
  · intro hne hdig
    have hd : is_decimal response = false := by
      rw [is_decimal]
      rw [Bool.eq_false_iff]
      intro hall
      rw [List.all_eq_true] at hall
      obtain ⟨c, hc, hcf⟩ := hdig
      rw [hall c hc] at hcf
      exact absurd hcf (by decide)
    match response, hne with
    | c :: rest, _ => simp [validate_response, hd]

/-- Witness for `integer_validation_cases`: the all-digit branch at the
concrete response `042`. -/
theorem integer_validation_cases_witness :
    validate_response (some Input_Formats.integer) true ("042".toList) =
      StepResult.ret (Response.asInt (parse_int ("042".toList))) :=
  (integer_validation_cases true ("042".toList)).1 (by decide) (by decide)

/-- C6: for a FreeText prompt (the default, `input_format = None`), an
empty required response makes the loop continue; an empty non-required
response returns the empty string itself, not the skip sentinel; and the
skip sentinel is a distinct constructor from every string result. -/
theorem freetext_empty_asymmetry (s : List Char) :
    (validate_response none true [] = StepResult.retry skip_error_message) ∧
    (validate_response none false [] = StepResult.ret (Response.asStr [])) ∧
    (Response.asStr s ≠ Response.skipped) := by
  refine ⟨by rfl, by rfl, ?_⟩
  intro h
  exact Response.noConfusion h

/-- Witness for `freetext_empty_asymmetry` at the empty string. -/
theorem freetext_empty_asymmetry_witness :
    (validate_response none false [] = StepResult.ret (Response.asStr [])) ∧
    (Response.asStr [] ≠ Response.skipped) :=
  ⟨(freetext_empty_asymmetry []).2.1, (freetext_empty_asymmetry []).2.2⟩

/-- C1: running a YesNo prompt over the scripted input `["bogus", "y"]`.
The source's y/n reading branch (lines 208-212) calls `input` twice per
iteration and keeps only the second line, so the run finishes after a
single render/read cycle, consuming both scripted lines and returning
true: the first line `bogus` is discarded without ever being
validated. -/
theorem yn_scripted_run_double_read :
    prompt_user [] [] (some Input_Formats.yn) true ["bogus".toList, "y".toList] =
      some (Response.asBool true, 1, 2) := by
  rfl

/-- C9: when menu options are supplied and no input format is given, the
options do not constrain validation: the run returns the stripped
response verbatim after one iteration whenever it is non-empty (and,
when not required, even when it is empty), for every option list. -/
theorem menu_options_do_not_validate (menu_options : List (List Char)) (required : Bool)
    (s : List Char) (hm : menu_options ≠ [])
    (hs : required = true → strip s ≠ []) :
    prompt_user [] menu_options none required [s] =
      some (Response.asStr (strip s), 1, 1) := by
  have hmenu : menu_options.isEmpty = false := List.isEmpty_eq_false.mpr hm
  have hcond : (required && (strip s).isEmpty) = false := by
    cases required with
    | false => rfl
    | true =>
      have h1 : (strip s).isEmpty = false := List.isEmpty_eq_false.mpr (hs rfl)
      simp [h1]
  show prompt_user_go [] menu_options none required 1 [s] 0 0 =
    some (Response.asStr (strip s), 1, 1)
  rw [prompt_user_go, take_response]
  simp [hmenu, validate_response, hcond]

/-- Witness for `menu_options_do_not_validate`: the response `2` is
returned verbatim, never parsed against the one-element option list. -/
theorem menu_options_do_not_validate_witness :
    prompt_user [] ["alpha".toList] none true ["2".toList] =
      some (Response.asStr (strip ("2".toList)), 1, 1) :=
  menu_options_do_not_validate (["alpha".toList]) true ("2".toList)
    (by decide) (fun _ => by decide)

/-- Padding to width `n` yields exactly `n` characters when the content
fits. -/
lemma pad_to_length (line : List Char) (n : Nat) (h : line.length ≤ n) :
    (pad_to line n).length = n := by
  simp [pad_to]
  omega

/-- Every chunk produced by the fixed-size slicing has length at most
the slice width. -/
lemma chunk_go_length_le (m : Nat) (fuel : Nat) :
    ∀ s, ∀ c ∈ chunk_go m fuel s, c.length ≤ m := by
  induction fuel with
  | zero =>
    intro s c hc
    simp [chunk_go] at hc
  | succ fuel ih =>
    intro s c hc
    rw [chunk_go] at hc
    split at hc
    · simp at hc
    · rcases List.mem_cons.mp hc with rfl | hc
      · rw [List.length_take]
        omega
      · exact ih _ c hc

/-- Every chunk of an option label has length at most the slice width. -/
lemma chunks_length_le (option : List Char) (m : Nat) :
    ∀ c ∈ chunks option m, c.length ≤ m :=
  chunk_go_length_le m option.length option

/-- A non-empty option label has at least one chunk. -/
lemma chunks_ne_nil (option : List Char) (m : Nat) (h : option ≠ []) :
    chunks option m ≠ [] := by
  match option, h with
  | c :: rest, _ =>
    show chunk_go m (rest.length + 1) (c :: rest) ≠ []
    rw [chunk_go]
    simp

/-- The decimal rendering of a one-digit positive number is one
character long. -/
lemma repr_length_one (n : Nat) (h1 : 1 ≤ n) (h2 : n ≤ 9) :
    (Nat.repr n).length = 1 := by
  interval_cases n <;> rfl

/-- Width of the first row of an option whose 1-based number has one
digit. -/
lemma option_first_row_length (m idx : Nat) (chunk : List Char) (hc : chunk.length ≤ m)
    (hidx : idx + 1 ≤ 9) : (option_first_row m idx chunk).length = m + 8 := by
  have hr : (Nat.repr (idx + 1)).length = 1 := repr_length_one (idx + 1) (by omega) hidx
  have hp : (pad_to chunk m).length = m := pad_to_length chunk m hc
  simp [option_first_row]
  omega

/-- Width of a continuation row of an option. -/
lemma option_cont_row_length (m : Nat) (chunk : List Char) (hc : chunk.length ≤ m) :
    (option_cont_row m chunk).length = m + 8 := by
  have hp : (pad_to chunk m).length = m := pad_to_length chunk m hc
  simp [option_cont_row]
  omega

/-- Width of a header content row. -/
lemma header_row_length (v : Char) (n : Nat) (line : List Char) (h : line.length ≤ n) :
    (header_row v n line).length = n + 4 := by
  have hp : (pad_to line n).length = n := pad_to_length line n h
  simp [header_row]
  omega

/-- Width of a query content row. -/
lemma query_row_length (n : Nat) (line : List Char) (h : line.length ≤ n) :
    (query_row n line).length = n + 4 := by
  have hp : (pad_to line n).length = n := pad_to_length line n h
  simp [query_row]
  omega

/-- The option loop renders every option with a non-empty label. -/
lemma option_rows_isSome (m : Nat) :
    ∀ opts idx, (∀ o ∈ opts, o ≠ []) → (option_rows m idx opts).isSome = true := by
  intro opts
  induction opts with
  | nil =>
    intro idx _
    rfl
  | cons o rest ih =>
    intro idx h
    have h1 : chunks o m ≠ [] := chunks_ne_nil o m (h o (by simp))
    have h2 := ih (idx + 1) (fun x hx => h x (by simp [hx]))
    cases hc : chunks o m with
    | nil => exact absurd hc h1
    | cons c cs =>
      cases hr : option_rows m (idx + 1) rest with
      | none =>
        rw [hr] at h2
        simp at h2
      | some tail => simp [option_rows, hc, hr]

/-- The option loop fails exactly as the source raises: an empty option
label anywhere in the list makes the result `none`. -/
lemma option_rows_none_of_mem_nil (m : Nat) :
    ∀ opts idx, [] ∈ opts → option_rows m idx opts = none := by
  intro opts
  induction opts with
  | nil =>
    intro idx h
    simp at h
  | cons o rest ih =>
    intro idx h
    rcases List.mem_cons.mp h with rfl | h
    · have hc : chunks ([] : List Char) m = [] := rfl
      simp [option_rows, hc]
    · rw [option_rows, ih (idx + 1) h]
      cases hc : chunks o m <;> simp

/-- Every row rendered by the option loop has width `m + 8` when the
option numbers stay below 10. -/
lemma option_rows_lengths (m : Nat) :
    ∀ opts idx rows, idx + opts.length ≤ 9 → option_rows m idx opts = some rows →
      ∀ r ∈ rows, r.length = m + 8 := by
  intro opts
  induction opts with
  | nil =>
    intro idx rows _ h r hr
    rw [option_rows] at h
    cases h
    simp at hr
  | cons o rest ih =>
    intro idx rows hle h r hr
    rw [option_rows] at h
    rcases hc : chunks o m with _ | ⟨c, cs⟩ <;> rw [hc] at h
    · cases h
    · rcases ht : option_rows m (idx + 1) rest with _ | tail <;> rw [ht] at h
      · cases h
      · simp only [Option.some.injEq] at h
        subst h
        simp only [List.length_cons] at hle
        rcases List.mem_cons.mp hr with rfl | hr
        · exact option_first_row_length m idx c
            (chunks_length_le o m c (by rw [hc]; simp)) (by omega)
        · rcases List.mem_append.mp hr with hr | hr
          · obtain ⟨d, hd, rfl⟩ := List.mem_map.mp hr
            exact option_cont_row_length m d
              (chunks_length_le o m d (by rw [hc]; simp [hd]))
          · exact ih (idx + 1) tail (by omega) ht r hr

/-- Every line of the header section is exactly `max_width` wide. -/
lemma header_block_lengths (v : Char) (header : List Char) (max_width : Nat)
    (hw : 1 ≤ max_width - 4) :
    ∀ l ∈ header_block v header (max_width - 4) max_width, l.length = max_width := by
  intro l hl
  rw [header_block] at hl
  split at hl
  · simp at hl
  · rcases List.mem_append.mp hl with hl | hl
    · obtain ⟨x, hx, rfl⟩ := List.mem_map.mp hl
      have hx1 : x.length ≤ max_width - 4 :=
        (line_split_go_spec (max_width - 4) hw header.length header le_rfl).2.2 x hx
      rw [header_row_length v (max_width - 4) x hx1]
      omega
    · simp only [List.mem_singleton] at hl
      subst hl
      simp [blank_row]
      omega

/-- Every line of the query section is exactly `max_width` wide. -/
lemma query_block_lengths (query : List Char) (max_width : Nat)
    (hw : 1 ≤ max_width - 4) :
    ∀ l ∈ query_block query (max_width - 4), l.length = max_width := by
  intro l hl
  rw [query_block] at hl
  obtain ⟨x, hx, rfl⟩ := List.mem_map.mp hl
  have hx1 : x.length ≤ max_width - 4 :=
    (line_split_go_spec (max_width - 4) hw query.length query le_rfl).2.2 x hx
  rw [query_row_length (max_width - 4) x hx1]
  omega

/-- C2 (amended): for every valid combination of query, max_width,
options and header — widths `max_width - 4` and, with options present,
`max_width - 8` at least 1 — in which additionally every option label is
non-empty (so rendering does not crash) and there are at most 9 options,
the renderer succeeds and every emitted line has length exactly
`max_width`.  (With 10 or more options, the numbering prefix
`"{i} - "` of option `i ≥ 10` grows by one character and its first
row overflows, see the counterexample.) -/
theorem display_prompt_rectangle (v_border i_border h_border : Char)
    (query header : List Char) (max_width : Nat) (options : List (List Char))
    (hw : 1 ≤ max_width - 4)
    (hoptw : options ≠ [] → 1 ≤ max_width - 8)
    (hcount : options.length ≤ 9)
    (hopts : ∀ o ∈ options, o ≠ []) :
    (display_prompt v_border i_border h_border query max_width options header).isSome = true ∧
    ((display_prompt v_border i_border h_border query max_width options header).getD []).all
      (fun l => decide (l.length = max_width)) = true := by
  have hhb := header_block_lengths v_border header max_width hw
  have hqb := query_block_lengths query max_width hw
  have htop : (top_border h_border max_width).length = max_width := by simp [top_border]
  by_cases ho : options.isEmpty = true
  · rw [display_prompt, if_pos ho]
    refine ⟨rfl, ?_⟩
    rw [show (some (top_border h_border max_width ::
        ((header_block v_border header (max_width - 4) max_width ++
          query_block query (max_width - 4)) ++ [top_border h_border max_width]))).getD [] =
        top_border h_border max_width ::
        ((header_block v_border header (max_width - 4) max_width ++
          query_block query (max_width - 4)) ++ [top_border h_border max_width]) from rfl]
    rw [List.all_eq_true]
    intro l hl
    apply decide_eq_true
    rcases List.mem_cons.mp hl with rfl | hl
    · exact htop
    · rcases List.mem_append.mp hl with hl | hl
      · rcases List.mem_append.mp hl with hl | hl
        · exact hhb l hl
        · exact hqb l hl
      · simp only [List.mem_singleton] at hl
        subst hl
        exact htop
  · have hne : options ≠ [] := by
      intro h
      subst h
      exact ho rfl
    have h8 : 1 ≤ max_width - 8 := hoptw hne
    have hsome := option_rows_isSome (max_width - 4 - 4) options 0 hopts
    rcases hr : option_rows (max_width - 4 - 4) 0 options with _ | rows
    · rw [hr] at hsome
      simp at hsome
    · have hrows : ∀ r ∈ rows, r.length = max_width := by
        intro r hrr
        have h1 := option_rows_lengths (max_width - 4 - 4) options 0 rows (by omega) hr r hrr
        omega
      rw [display_prompt, if_neg ho, hr]
      refine ⟨rfl, ?_⟩
      rw [List.all_eq_true]
      intro l hl
      apply decide_eq_true
      simp only [Option.getD_some] at hl
      rcases List.mem_cons.mp hl with rfl | hl
      · exact htop
      · rcases List.mem_append.mp hl with hl | hl
        · rcases List.mem_append.mp hl with hl | hl
          · exact hhb l hl
          · rcases List.mem_append.mp hl with hl | hl
            · exact hqb l hl
            · rcases List.mem_cons.mp hl with rfl | hl
              · simp [divider_row]
                omega
              · exact hrows l hl
        · simp only [List.mem_singleton] at hl
          subst hl
          exact htop

/-- Witness for `display_prompt_rectangle` at a concrete 12-wide box
with one option. -/
theorem display_prompt_rectangle_witness :
    (display_prompt '|' '-' '-' ("hello".toList) 12 [("ab".toList)] ("hi".toList)).isSome =
      true ∧
    ((display_prompt '|' '-' '-' ("hello".toList) 12 [("ab".toList)] ("hi".toList)).getD
      []).all (fun l => decide (l.length = 12)) = true :=
  display_prompt_rectangle '|' '-' '-' ("hello".toList) ("hi".toList) 12 ([("ab".toList)])
    (by decide) (fun _ => by decide) (by decide) (by decide)

/-- Ten one-character menu options, each non-empty. -/
def ten_options : List (List Char) :=
  [['a'], ['a'], ['a'], ['a'], ['a'], ['a'], ['a'], ['a'], ['a'], ['a']]

/-- Counterexample to C2 as stated: a valid combination (max_width 12,
so content width 8 and option width 4 are both at least 1, and every
option non-empty) with ten options, where rendering succeeds but the
row of option 10 is 13 characters wide, not 12. -/
theorem display_prompt_rectangle_counterexample :
    (display_prompt '|' '-' '-' ("q".toList) 12 ten_options []).isSome = true ∧
    ((display_prompt '|' '-' '-' ("q".toList) 12 ten_options []).getD []).all
      (fun l => decide (l.length = 12)) = false := by
  constructor <;> rfl

/-- C10: an empty option label produces an empty chunk list, whose first
element the source indexes (`chunks[0]`, line 148); in this total
embedding that out-of-bounds access is the reachable `none` branch, so
box rendering is not total over option lists containing the empty
string. -/
theorem empty_option_crashes (v_border i_border h_border : Char)
    (query header : List Char) (max_width : Nat) (options : List (List Char))
    (h : [] ∈ options) :
    chunks [] (max_width - 4 - 4) = [] ∧
    display_prompt v_border i_border h_border query max_width options header = none := by
  refine ⟨rfl, ?_⟩
  have ho : options.isEmpty = false := List.isEmpty_eq_false.mpr (List.ne_nil_of_mem h)
  rw [display_prompt, if_neg (by simp [ho]),
    option_rows_none_of_mem_nil (max_width - 4 - 4) options 0 h]

/-- Witness for `empty_option_crashes` at a concrete option list whose
second option is the empty string. -/
theorem empty_option_crashes_witness :
    chunks [] (12 - 4 - 4) = [] ∧
    display_prompt '|' '-' '-' ("q".toList) 12 [['a'], [], ['b']] [] = none :=
  empty_option_crashes '|' '-' '-' ("q".toList) [] 12 ([['a'], [], ['b']]) (by decide)

/-- A line begins and ends with the glyph `v`. -/
def edges_match (v : Char) (l : List Char) : Bool :=
  (l.head? == some v) && (l.getLast? == some v)

/-- Any line of the shape `v :: (mid ++ [v])` begins and ends with `v`. -/
lemma edges_match_of_shape (v : Char) (mid : List Char) :
    edges_match v (v :: (mid ++ [v])) = true := by
  rw [edges_match]
  have h2 : (v :: (mid ++ [v])).getLast? = some v := by
    rw [show v :: (mid ++ [v]) = (v :: mid) ++ [v] from rfl, List.getLast?_concat]
  rw [h2]
  simp

/-- Header rows begin and end with the configured vertical glyph. -/
lemma header_row_edges (v : Char) (n : Nat) (l : List Char) :
    edges_match v (header_row v n l) = true := by
  have h : header_row v n l = v :: ((' ' :: pad_to l n ++ [' ']) ++ [v]) := by
    simp [header_row]
  rw [h]
  exact edges_match_of_shape v _

/-- Query rows begin and end with the literal `|` character. -/
lemma query_row_edges (n : Nat) (l : List Char) :
    edges_match '|' (query_row n l) = true := by
  have h : query_row n l = '|' :: ((' ' :: pad_to l n ++ [' ']) ++ ['|']) := by
    simp [query_row]
  rw [h]
  exact edges_match_of_shape '|' _

/-- First option rows begin and end with the literal `|` character. -/
lemma option_first_row_edges (n idx : Nat) (c : List Char) :
    edges_match '|' (option_first_row n idx c) = true := by
  have h : option_first_row n idx c =
      '|' :: ((' ' :: (Nat.repr (idx + 1)).toList ++
        (' ' :: '-' :: ' ' :: pad_to c n ++ [' '])) ++ ['|']) := by
    simp [option_first_row]
  rw [h]
  exact edges_match_of_shape '|' _

/-- Continuation option rows begin and end with the literal `|`
character. -/
lemma option_cont_row_edges (n : Nat) (c : List Char) :
    edges_match '|' (option_cont_row n c) = true := by
  have h : option_cont_row n c =
      '|' :: ((' ' :: ' ' :: ' ' :: ' ' :: ' ' :: pad_to c n ++ [' ']) ++ ['|']) := by
    simp [option_cont_row]
  rw [h]
  exact edges_match_of_shape '|' _

/-- The blank row begins and ends with the configured vertical glyph. -/
lemma blank_row_edges (v : Char) (w : Nat) :
    edges_match v (blank_row v w) = true :=
  edges_match_of_shape v _

/-- The divider begins and ends with the configured vertical glyph. -/
lemma divider_row_edges (v i : Char) (w : Nat) :
    edges_match v (divider_row v i w) = true :=
  edges_match_of_shape v _

/-- Every row of the option section begins and ends with the literal
`|` character. -/
lemma option_rows_edges (m : Nat) :
    ∀ opts idx rows, option_rows m idx opts = some rows →
      ∀ r ∈ rows, edges_match '|' r = true := by
  intro opts
  induction opts with
  | nil =>
    intro idx rows h r hr
    rw [option_rows] at h
    cases h
    simp at hr
  | cons o rest ih =>
    intro idx rows h r hr
    rw [option_rows] at h
    rcases hc : chunks o m with _ | ⟨c, cs⟩ <;> rw [hc] at h
    · cases h
    · rcases ht : option_rows m (idx + 1) rest with _ | tail <;> rw [ht] at h
      · cases h
      · simp only [Option.some.injEq] at h
        subst h
        rcases List.mem_cons.mp hr with rfl | hr
        · exact option_first_row_edges m idx c
        · rcases List.mem_append.mp hr with hr | hr
          · obtain ⟨d, hd, rfl⟩ := List.mem_map.mp hr
            exact option_cont_row_edges m d
          · exact ih (idx + 1) tail ht r hr

/-- Every line of the header section begins and ends with the
configured vertical glyph. -/
lemma header_block_edges (v : Char) (header : List Char) (n w : Nat) :
    ∀ l ∈ header_block v header n w, edges_match v l = true := by
  intro l hl
  rw [header_block] at hl
  split at hl
  · simp at hl
  · rcases List.mem_append.mp hl with hl | hl
    · obtain ⟨x, _, rfl⟩ := List.mem_map.mp hl
      exact header_row_edges v n x
    · simp only [List.mem_singleton] at hl
      subst hl
      exact blank_row_edges v w

/-- Every line of the query section begins and ends with the literal
`|` character. -/
lemma query_block_edges (query : List Char) (n : Nat) :
    ∀ l ∈ query_block query n, edges_match '|' l = true := by
  intro l hl
  rw [query_block] at hl
  obtain ⟨x, _, rfl⟩ := List.mem_map.mp hl
  exact query_row_edges n x

/-- C8 (amended): the rendered content is a pure function of the inputs
and the engine's border glyphs, but the configured vertical glyph only
frames the header section (header lines and the blank row) and the
divider; query lines and option lines are framed by the hard-coded
literal `|` instead.  Every interior line of the box therefore begins
and ends either with the configured glyph or with `|`. -/
theorem display_prompt_border_glyphs (v_border i_border h_border : Char)
    (query header : List Char) (max_width : Nat) (options : List (List Char)) :
    ((header_block v_border header (max_width - 4) max_width).all
      (edges_match v_border) = true) ∧
    ((query_block query (max_width - 4)).all (edges_match '|') = true) ∧
    (∀ rows, option_rows (max_width - 4 - 4) 0 options = some rows →
      rows.all (edges_match '|') = true) ∧
    ((((display_prompt v_border i_border h_border query max_width options
        header).getD []).drop 1).dropLast.all
      (fun l => edges_match v_border l || edges_match '|' l) = true) := by
  have hhb : (header_block v_border header (max_width - 4) max_width).all
      (edges_match v_border) = true := by
    rw [List.all_eq_true]
    exact header_block_edges v_border header (max_width - 4) max_width
  have hqb : (query_block query (max_width - 4)).all (edges_match '|') = true := by
    rw [List.all_eq_true]
    exact query_block_edges query (max_width - 4)
  refine ⟨hhb, hqb, ?_, ?_⟩
  · intro rows hr
    rw [List.all_eq_true]
    exact option_rows_edges (max_width - 4 - 4) options 0 rows hr
  · have hhb2 : (header_block v_border header (max_width - 4) max_width).all
        (fun l => edges_match v_border l || edges_match '|' l) = true := by
      rw [List.all_eq_true]
      intro l hl
      rw [header_block_edges v_border header (max_width - 4) max_width l hl]
      rfl
    have hqb2 : (query_block query (max_width - 4)).all
        (fun l => edges_match v_border l || edges_match '|' l) = true := by
      rw [List.all_eq_true]
      intro l hl
      rw [query_block_edges query (max_width - 4) l hl]
      simp
    by_cases ho : options.isEmpty = true
    · rw [display_prompt, if_pos ho]
      rw [show ∀ x : List (List Char), (some x).getD [] = x from fun _ => rfl]
      rw [show ∀ (a : List Char) (x : List (List Char)), (a :: x).drop 1 = x
        from fun _ _ => rfl]
      rw [List.dropLast_concat, List.all_append, hhb2, hqb2]
      rfl
    · rcases hr : option_rows (max_width - 4 - 4) 0 options with _ | rows
      · rw [display_prompt, if_neg ho, hr]
        rfl
      · have hdiv : (divider_row v_border i_border max_width :: rows).all
            (fun l => edges_match v_border l || edges_match '|' l) = true := by
          rw [List.all_eq_true]
          intro l hl
          rcases List.mem_cons.mp hl with rfl | hl
          · rw [divider_row_edges v_border i_border max_width]
            rfl
          · rw [option_rows_edges (max_width - 4 - 4) options 0 rows hr l hl]
            simp
        rw [display_prompt, if_neg ho, hr]
        rw [show ∀ x : List (List Char), (some x).getD [] = x from fun _ => rfl]
        rw [show ∀ (a : List Char) (x : List (List Char)), (a :: x).drop 1 = x
          from fun _ _ => rfl]
        rw [List.dropLast_concat, List.all_append, List.all_append, hhb2, hqb2, hdiv]
        rfl

/-- Witness for `display_prompt_border_glyphs` at a concrete box with
glyph `#`, one option, and a header. -/
theorem display_prompt_border_glyphs_witness :
    (([option_first_row (12 - 4 - 4) 0 ['a']] : List (List Char)).all
      (edges_match '|') = true) ∧
    ((((display_prompt '#' '-' '-' ("q".toList) 12 [['a']] ("h".toList)).getD
      []).drop 1).dropLast.all
      (fun l => edges_match '#' l || edges_match '|' l) = true) :=
  ⟨(display_prompt_border_glyphs '#' '-' '-' ("q".toList) ("h".toList) 12
      ([['a']])).2.2.1 ([option_first_row (12 - 4 - 4) 0 ['a']]) (by rfl),
    (display_prompt_border_glyphs '#' '-' '-' ("q".toList) ("h".toList) 12
      ([['a']])).2.2.2⟩

/-- Counterexample to C8 as stated: with vertical glyph `#`, width 8, a
header and no options, rendering succeeds but not every interior line
begins and ends with `#` — the query row is framed by the hard-coded
`|` characters. -/
theorem display_prompt_border_glyphs_counterexample :
    (display_prompt '#' '-' '-' ("q".toList) 8 [] ("h".toList)).isSome = true ∧
    (((display_prompt '#' '-' '-' ("q".toList) 8 [] ("h".toList)).getD []).drop
      1).dropLast.all (edges_match '#') = false := by
  constructor <;> rfl
